import Mathlib

/-!
Verification of the PyTorrent client core against its specification.

This file gives a shallow embedding, in Lean 4, of the parts of the
PyTorrent source that the checked properties concern:

* the piece buffer (src/piece.py),
* the piece manager: block receipt, hash validation, file scatter/gather
  and piece selection (src/core/piece_manager.py),
* the torrent metadata loader (src/core/torrent.py),
* the wire-message decoder and the peer listening loop
  (src/protocol/message.py, src/network/peer.py),
* the handshake parser (src/network/peer.py),
* the PEX peer-list filtering (src/network/peer_manager.py,
  src/protocol/extensions/pex.py).

Python byte strings are modelled as lists of naturals, Python dicts as
insertion-ordered association lists, and Python's (clamping) slice
assignment as an explicit function.  External library calls that the
properties do not depend on (SHA-1, socket.inet_aton) are passed in as
function parameters.  Exceptions are modelled with Option: a function
returns none exactly when the corresponding Python code raises.
-/

namespace PyTorrent

/-- Python bytes / bytearray values: a list of byte values. -/
abbrev Bytes := List Nat

/-- Big-endian int.from_bytes. -/
def intFromBytes (bs : Bytes) : Nat :=
  bs.foldl (fun acc b => acc * 256 + b) 0

/-- Lookup in an insertion-ordered dict modelled as an association list. -/
def dictLookup (d : List (Nat × Nat)) (k : Nat) : Option Nat :=
  match d with
  | [] => none
  | p :: rest => if p.1 = k then some p.2 else dictLookup rest k

/-- Membership test of a key in a dict. -/
def dictMemB (d : List (Nat × Nat)) (k : Nat) : Bool :=
  match d with
  | [] => false
  | p :: rest => if p.1 = k then true else dictMemB rest k

/-- Python dict assignment d[k] = v: overwrite in place if the key exists
(keeping its position), else append at the end. -/
def dictInsert (d : List (Nat × Nat)) (k v : Nat) : List (Nat × Nat) :=
  if dictMemB d k then d.map (fun p => if p.1 = k then (k, v) else p)
  else d ++ [(k, v)]

/-- Python del d[k]. -/
def dictRemove (d : List (Nat × Nat)) (k : Nat) : List (Nat × Nat) :=
  d.filter (fun p => p.1 ≠ k)

/-- Python set.add on a list-modelled set. -/
def setInsert (s : List Nat) (x : Nat) : List Nat :=
  if x ∈ s then s else s ++ [x]

/-- Python set.discard on a list-modelled set. -/
def setDiscard (s : List Nat) (x : Nat) : List Nat :=
  s.filter (fun y => y ≠ x)

/-- Python slice assignment buf[start:stop] = data on a bytearray
(contiguous slice, no step): the slice bounds are clamped to the buffer
length, and the clamped range is replaced by data, which may have a
different length than the range. -/
def pySliceAssign (buf : Bytes) (start stop : Nat) (data : Bytes) : Bytes :=
  let s := min start buf.length
  let e := max s (min stop buf.length)
  buf.take s ++ data ++ buf.drop e

/-- Python slice read xs[a:b] (non-negative bounds). -/
def pySlice (buf : Bytes) (a b : Nat) : Bytes :=
  (buf.take b).drop a

/-! ## Piece buffer (src/piece.py) -/

/-- The Piece class of src/piece.py: an in-memory assembly buffer for one
piece.  received maps a block offset to the length of the last block
recorded at that offset (Python dict semantics). -/
structure Piece where
  piece_index : Nat
  piece_length : Nat
  piece_hash : Bytes
  raw_data : Bytes
  received : List (Nat × Nat)
deriving DecidableEq, Repr

/-- Piece.__init__: preallocates a zero buffer of piece_length bytes. -/
def Piece.mkInit (piece_index piece_length : Nat) (piece_hash : Bytes) : Piece :=
  { piece_index := piece_index
    piece_length := piece_length
    piece_hash := piece_hash
    raw_data := List.replicate piece_length 0
    received := [] }

/-- Piece.add_block: raw_data[offset:offset+len(data)] = data, then
received[offset] = len(data). -/
def Piece.add_block (p : Piece) (offset : Nat) (data : Bytes) : Piece :=
  { p with
    raw_data := pySliceAssign p.raw_data offset (offset + data.length) data
    received := dictInsert p.received offset data.length }

/-- Piece.is_complete: sum(received.values()) >= piece_length. -/
def Piece.is_complete (p : Piece) : Bool :=
  p.piece_length ≤ (p.received.map Prod.snd).sum

/-- Piece.flush: reset the buffer and the received map. -/
def Piece.flush (p : Piece) : Piece :=
  { p with raw_data := List.replicate p.piece_length 0, received := [] }

/-- Sequence of add_block calls applied in order. -/
def applyBlocks (p : Piece) (calls : List (Nat × Bytes)) : Piece :=
  calls.foldl (fun acc c => acc.add_block c.1 c.2) p

/-- Whether byte offset i is covered by some recorded block (offset,length)
interval. -/
def coversByte (blocks : List (Nat × Nat)) (i : Nat) : Bool :=
  blocks.any (fun b => decide (b.1 ≤ i) && decide (i < b.1 + b.2))

/-! ## Storage: scatter/gather across the multi-file layout
(src/core/piece_manager.py, PieceManager._write_piece_to_files and
PieceManager.get_piece_block) -/

/-- One entry of PieceManager.output_files: a file path together with its
declared length and its absolute offset in the concatenated stream. -/
structure OutFile where
  path : String
  length : Nat
  offset : Nat
deriving DecidableEq, Repr

/-- The on-disk contents of the pre-allocated files: path to bytes. -/
abbrev FileSystem := List (String × Bytes)

/-- Contents of one file (missing files read as empty). -/
def fsRead (fs : FileSystem) (path : String) : Bytes :=
  match fs with
  | [] => []
  | f :: rest => if f.1 = path then f.2 else fsRead rest path

/-- Opening a file 'r+b', seeking to pos and writing slice: bytes
[pos, pos+len(slice)) are overwritten, the rest of the file is kept.
(The source only writes at positions inside the pre-allocated length.) -/
def fsWrite (fs : FileSystem) (path : String) (pos : Nat) (slice : Bytes) : FileSystem :=
  fs.map (fun f =>
    if f.1 = path then (f.1, f.2.take pos ++ slice ++ f.2.drop (pos + slice.length)) else f)

/-- Stable insertion of a file into a list sorted by offset. -/
def insertByOffset (f : OutFile) (l : List OutFile) : List OutFile :=
  match l with
  | [] => [f]
  | g :: rest => if f.offset < g.offset then f :: g :: rest else g :: insertByOffset f rest

/-- The source's sorted(self.output_files.items(), key=offset): a stable
sort of the files by their stream offset. -/
def sortByOffset (l : List OutFile) : List OutFile :=
  l.foldr insertByOffset []

/-- The loop body of PieceManager._write_piece_to_files, iterating over the
files sorted by offset.  piece_offset is piece_index*piece_length;
current_offset and remaining are the source's tracking variables.  Note the
source takes data_slice = piece_data[overlap_start:overlap_end], with
indices relative to the still-unwritten suffix of the piece but applied to
the whole piece buffer. -/
def writePieceLoop (piece_offset : Nat) (piece_data : Bytes) (files : List OutFile)
    (current_offset remaining : Nat) (fs : FileSystem) : FileSystem :=
  match files with
  | [] => fs
  | f :: rest =>
    let file_start := f.offset
    let file_end := f.offset + f.length
    let pos := piece_offset + current_offset
    if pos < file_end ∧ file_start < pos + remaining then
      let overlap_start := file_start - pos
      let overlap_end := min remaining (file_end - pos)
      let overlap_length := overlap_end - overlap_start
      let write_pos := (pos + overlap_start) - file_start
      let data_slice := pySlice piece_data overlap_start overlap_end
      let fs2 := fsWrite fs f.path write_pos data_slice
      if remaining - overlap_length = 0 then fs2
      else writePieceLoop piece_offset piece_data rest
        (current_offset + overlap_length) (remaining - overlap_length) fs2
    else writePieceLoop piece_offset piece_data rest current_offset remaining fs

/-- PieceManager._write_piece_to_files: write a complete piece across the
file span containing its byte range. -/
def write_piece_to_files (piece_length : Nat) (output_files : List OutFile)
    (fs : FileSystem) (piece_index : Nat) (piece_data : Bytes) : FileSystem :=
  writePieceLoop (piece_index * piece_length) piece_data (sortByOffset output_files)
    0 piece_data.length fs

/-- The loop of PieceManager.get_piece_block, iterating over the files
sorted by offset and assembling the requested range into result. -/
def readBlockLoop (absolute_offset length : Nat) (files : List OutFile)
    (fs : FileSystem) (result : Bytes) (bytes_read : Nat) : Bytes × Nat :=
  match files with
  | [] => (result, bytes_read)
  | f :: rest =>
    let file_start := f.offset
    let file_end := f.offset + f.length
    if file_end ≤ absolute_offset ∨ absolute_offset + length ≤ file_start then
      readBlockLoop absolute_offset length rest fs result bytes_read
    else
      let read_start := absolute_offset - file_start
      let read_end := min f.length (absolute_offset + length - file_start)
      let read_length := read_end - read_start
      if read_length = 0 then
        readBlockLoop absolute_offset length rest fs result bytes_read
      else
        let buffer_offset := file_start - absolute_offset
        let file_data := (fsRead fs f.path).drop read_start |>.take read_length
        let result2 := pySliceAssign result buffer_offset (buffer_offset + file_data.length) file_data
        readBlockLoop absolute_offset length rest fs result2 (bytes_read + file_data.length)

/-- PieceManager.get_piece_block: read a block of a completed piece back
from the file layout; none models the source's None returns. -/
def get_piece_block (piece_length : Nat) (output_files : List OutFile)
    (fs : FileSystem) (completed_pieces : List Nat)
    (piece_index offset length : Nat) : Option Bytes :=
  if piece_index ∈ completed_pieces then
    let absolute_offset := piece_index * piece_length + offset
    let r := readBlockLoop absolute_offset length (sortByOffset output_files) fs
      (List.replicate length 0) 0
    if r.2 = length then some r.1
    else if 0 < r.2 then some (r.1.take r.2) else none
  else none

/-! ## Piece manager state and operations (src/core/piece_manager.py) -/

/-- The mutable state of a PieceManager that recieve_block_piece,
release_piece and choose_next_piece read and write.  Counters are the
entries of self.stats that these methods touch. -/
structure PMState where
  pieces : List Piece
  busy_pieces : List Nat
  completed_pieces : List Nat
  failed_attempts : List (Nat × Nat)
  piece_lock_time : List (Nat × Nat)
  number_of_pieces : Nat
  bitfield : List Bool
  output_files : List OutFile
  piece_length : Nat
  fs : FileSystem
  progress_file : List Bool
  pieces_selected : Nat
  pieces_completed : Nat
  pieces_failed : Nat
  pieces_invalid : Nat
deriving DecidableEq, Repr

/-- A default piece for out-of-range list reads (unreachable in the guarded
paths below). -/
def dummyPiece : Piece := Piece.mkInit 0 0 []

/-- PieceManager.release_piece: discard a busy piece and its lock time;
count a failure when failed is set. -/
def release_piece (s : PMState) (piece_index : Nat) (failed : Bool) : PMState :=
  if piece_index ∈ s.busy_pieces then
    let s1 := { s with
      busy_pieces := setDiscard s.busy_pieces piece_index
      piece_lock_time := dictRemove s.piece_lock_time piece_index }
    if failed then { s1 with pieces_failed := s1.pieces_failed + 1 } else s1
  else s

/-- PieceManager._save_progress: persist the bitfield to the sidecar. -/
def save_progress (s : PMState) : PMState :=
  { s with progress_file := s.bitfield }

/-- PieceManager.recieve_block_piece: record a block; when the piece
completes, validate its SHA-1 (sha1 is the external hash function) and
either persist the piece or flush it for re-download.  Returns the
method's boolean result and the state after the call. -/
def recieve_block_piece (sha1 : Bytes → Bytes) (s : PMState)
    (piece_index piece_offset : Nat) (piece_data : Bytes) : Bool × PMState :=
  if s.number_of_pieces ≤ piece_index then (false, s)
  else
    let piece := s.pieces.getD piece_index dummyPiece
    let piece1 := piece.add_block piece_offset piece_data
    let pieces1 := s.pieces.set piece_index piece1
    if piece1.is_complete then
      if sha1 piece1.raw_data = piece1.piece_hash then
        let s1 := { s with
          pieces := pieces1
          completed_pieces := setInsert s.completed_pieces piece_index
          bitfield := s.bitfield.set piece_index true }
        let s2 := { s1 with
          fs := write_piece_to_files s1.piece_length s1.output_files s1.fs
            piece_index piece1.raw_data }
        let s3 := release_piece s2 piece_index false
        let s4 := { s3 with pieces_completed := s3.pieces_completed + 1 }
        (true, save_progress s4)
      else
        (false, { s with
          pieces := pieces1.set piece_index piece1.flush
          busy_pieces := setDiscard s.busy_pieces piece_index
          pieces_invalid := s.pieces_invalid + 1 })
    else (false, { s with pieces := pieces1 })

/-- The auto-release pass run by choose_next_piece when no candidate is
available: any piece locked for more than 120 seconds is released. -/
def sweepExpired (s : PMState) (now : Nat) : PMState :=
  s.piece_lock_time.foldl
    (fun acc p => if 120 < now - p.2 then release_piece acc p.1 true else acc) s

/-- Whether the candidate peer's bitfield has piece i, after the source's
short-bitfield guard (both the BitArray and the list format reduce to an
index lookup). -/
def bitfieldHas (bits : List Bool) (i : Nat) : Bool :=
  if bits.length ≤ i then false else bits.getD i false

/-- The priority weight of a candidate piece: 0.8 per previous failure. -/
def candidatePriority (s : PMState) (i : Nat) : ℚ :=
  match dictLookup s.failed_attempts i with
  | some f => (4 / 5 : ℚ) ^ f
  | none => 1

/-- The per-piece guards of PieceManager.choose_next_piece's candidate
loop: skip pieces with non-positive length, completed pieces, busy pieces,
and (when the peer's bitfield is known) pieces the peer lacks. -/
def isCandidate (s : PMState) (bf : Option (List Bool)) (i : Nat) : Bool :=
  !((s.pieces.getD i dummyPiece).piece_length = 0) &&
  !(i ∈ s.completed_pieces) && !(i ∈ s.busy_pieces) &&
  (match bf with
   | none => true
   | some bits => bitfieldHas bits i)

/-- The candidates list built by PieceManager.choose_next_piece: the
surviving piece indices in order, each paired with its priority. -/
def candidateList (s : PMState) (bf : Option (List Bool)) : List (Nat × ℚ) :=
  ((List.range s.pieces.length).filter (fun i => isCandidate s bf i)).map
    (fun i => (i, candidatePriority s i))

/-- The weighted-random selection loop: return the first candidate whose
cumulative priority reaches the draw r. -/
def selectLoop (cands : List (Nat × ℚ)) (cum r : ℚ) : Option Nat :=
  match cands with
  | [] => none
  | c :: rest => if r ≤ cum + c.2 then some c.1 else selectLoop rest (cum + c.2) r

/-- Marking a chosen piece busy with the current time. -/
def markBusy (s : PMState) (i now : Nat) : PMState :=
  { s with
    busy_pieces := setInsert s.busy_pieces i
    piece_lock_time := dictInsert s.piece_lock_time i now
    pieces_selected := s.pieces_selected + 1 }

/-- PieceManager.choose_next_piece.  u models random.random(), so the draw
is r = u * total_priority.  When no candidate exists, the source sweeps
stale locks and returns None.  After the weighted selection, the source's
dead fallbacks are kept: the first candidate when the cumulative loop falls
through, and the trailing return None. -/
def choose_next_piece (s : PMState) (bf : Option (List Bool)) (u : ℚ) (now : Nat) :
    Option Nat × PMState :=
  if (candidateList s bf).isEmpty then (none, sweepExpired s now)
  else
    match selectLoop (candidateList s bf) 0
        (u * ((candidateList s bf).map Prod.snd).sum) with
    | some i => (some i, markBusy s i now)
    | none =>
      match (candidateList s bf).head? with
      | some c0 => (some c0.1, markBusy s c0.1 now)
      | none => (none, s)

/-! ## Torrent metadata loader (src/core/torrent.py) -/

/-- One entry of the decoded info dictionary's files list. -/
structure BFileEntry where
  length : Nat
  path : List String
deriving DecidableEq, Repr

/-- The decoded metainfo fields that Torrent.load_file reads: the info
dictionary's name, piece length, pieces string, and either a files list
(multi-file) or a length field (single-file). -/
structure MetaInfo where
  name : String
  piece_length : Nat
  pieces : Bytes
  filesKey : Option (List BFileEntry)
  lengthKey : Nat
deriving DecidableEq, Repr

/-- An entry of Torrent.files. -/
structure TFile where
  length : Nat
  path : List String
deriving DecidableEq, Repr

/-- The Torrent fields relevant here, after __init__ plus load_file. -/
structure Torrent where
  name : String
  piece_length : Nat
  pieces : Bytes
  total_pieces : Nat
  files : List TFile
  file_length : Nat
deriving DecidableEq, Repr

/-- Torrent.load_file on an already-decoded metainfo: the single-file
branch sets file_length from the length key; the multi-file branch fills
files from the files list and leaves file_length at its __init__ value 0. -/
def Torrent.loadFrom (m : MetaInfo) : Torrent :=
  { name := m.name
    piece_length := m.piece_length
    pieces := m.pieces
    total_pieces := m.pieces.length / 20
    files :=
      match m.filesKey with
      | some entries => entries.map (fun e => { length := e.length, path := e.path })
      | none => [{ length := m.lengthKey, path := [m.name] }]
    file_length :=
      match m.filesKey with
      | some _ => 0
      | none => m.lengthKey }

/-! ## Wire messages and the listening loop
(src/protocol/message.py, src/network/peer.py) -/

/-- The deserialized message variants of src/protocol/message.py. -/
inductive Msg where
  | choke
  | unchoke
  | interested
  | notInterested
  | haveIdx (index : Nat)
  | bitfieldMsg (bits : Bytes)
  | request (index blockOffset blockLength : Nat)
  | pieceMsg (index blockOffset : Nat) (block : Bytes)
  | cancel
  | extendedMsg (ext : Nat) (payload : Bytes)
deriving DecidableEq, Repr

/-- Message.deserialize on a frame's content (message id byte followed by
the payload).  none models the source's None result: its try/except
swallows every deserialization error.  Note Choke.deserialize_payload
returns Unchoke() in the source; NotInterested, Request and Cancel do not
override the raising base deserialize_payload; Piece slices its payload
without length checks, so short payloads decode with truncated fields. -/
def deserializeMessage (data : Bytes) : Option Msg :=
  match data with
  | [] => none
  | mid :: payload =>
    if mid = 20 then
      match payload with
      | [] => none
      | e :: p => some (.extendedMsg e p)
    else if mid = 0 then some .unchoke
    else if mid = 1 then some .unchoke
    else if mid = 2 then some .interested
    else if mid = 3 then none
    else if mid = 4 then
      if payload.length = 4 then some (.haveIdx (intFromBytes payload)) else none
    else if mid = 5 then some (.bitfieldMsg payload)
    else if mid = 6 then none
    else if mid = 7 then
      some (.pieceMsg (intFromBytes (payload.take 4))
        (intFromBytes ((payload.drop 4).take 4)) (payload.drop 8))
    else if mid = 8 then none
    else none

/-- What one iteration of Peer.listen_for_messages does with a non-empty
frame: drop ends the loop (an exception escaped to the loop's handler), the
other actions continue it. -/
inductive ListenAction where
  | extHandshake (payload : Bytes)
  | pexMsg (payload : Bytes)
  | extOther
  | setUnchoke
  | setBitfield (bits : Bytes)
  | applyHave (index : Nat)
  | enqueuePiece (index blockOffset : Nat) (block : Bytes)
  | skip
  | drop
deriving DecidableEq, Repr

/-- The dispatch of Peer.listen_for_messages on one frame of content data
(the size bytes already read, size = data.length >= 1).  A frame of id 20
with no extension id byte raises IndexError outside any inner handler and
breaks the loop; every other frame either dispatches or is skipped, since
deserialization errors are swallowed inside Message.deserialize.  The
listener has branches for Unchoke, Bitfield, Have and Piece only; there is
no Choke branch. -/
def listenStep (ut_pex_id : Nat) (data : Bytes) : ListenAction :=
  match data with
  | [] => .drop
  | mid :: rest =>
    if mid = 20 then
      match rest with
      | [] => .drop
      | ext_id :: payload =>
        if ext_id = 0 then .extHandshake payload
        else if ext_id = ut_pex_id then .pexMsg payload
        else .extOther
    else
      match deserializeMessage (mid :: rest) with
      | some .unchoke => .setUnchoke
      | some (.bitfieldMsg b) => .setBitfield b
      | some (.haveIdx i) => .applyHave i
      | some (.pieceMsg i o b) => .enqueuePiece i o b
      | _ => .skip

/-- The Peer.state flag dictionary. -/
structure PeerFlags where
  am_choking : Bool
  am_interested : Bool
  peer_choking : Bool
  peer_interested : Bool
deriving DecidableEq, Repr

/-- Peer.__init__ flag values. -/
def initialFlags : PeerFlags :=
  { am_choking := true, am_interested := false
    peer_choking := true, peer_interested := false }

/-- The effect of one listened frame on the peer_choking flag: only the
setUnchoke action touches it (Peer.handle_unchoke); no listener action sets
it to true. -/
def applyFrameChoking (flags : PeerFlags) (ut_pex_id : Nat) (data : Bytes) : PeerFlags :=
  match listenStep ut_pex_id data with
  | .setUnchoke => { flags with peer_choking := false }
  | _ => flags

/-! ## Handshake parsing (src/network/peer.py) -/

/-- The dictionary Peer._parse_handshake returns. -/
structure HandshakeInfo where
  pstrlen : Nat
  pstr : Bytes
  reserved : Bytes
  info_hash : Bytes
  peer_id : Bytes
  supports_extensions : Bool
deriving DecidableEq, Repr

/-- Peer._parse_handshake: split the 68-byte response into its fields;
none models the raised ValueError on a wrong length and the IndexError
when the reserved slice has no byte 5. -/
def parse_handshake (response : Bytes) : Option HandshakeInfo :=
  if response.length = 68 then
    let pstrlen := response.headD 0
    let pstr := (response.drop 1).take pstrlen
    let reserved := (response.drop (1 + pstrlen)).take 8
    let info_hash := (response.drop (1 + pstrlen + 8)).take 20
    let peer_id := response.drop (1 + pstrlen + 8 + 20)
    match reserved.get? 5 with
    | none => none
    | some b =>
      some { pstrlen := pstrlen, pstr := pstr, reserved := reserved
             info_hash := info_hash, peer_id := peer_id
             supports_extensions := b &&& 16 ≠ 0 }
  else none

set_option linter.unusedVariables false in
/-- Whether Peer.connect leaves the peer healthy after receiving a 68-byte
handshake response: the parse result is bound but never compared against
our info hash, so healthy becomes false only when parsing raises.  The
my_info_hash argument mirrors self.info_hash, which this code path never
consults (hence deliberately unused). -/
def connectOutcome (my_info_hash : Bytes) (response : Bytes) : Bool :=
  match parse_handshake response with
  | some _ => true
  | none => false

/-! ## PEX peer-list filtering (src/network/peer_manager.py,
src/protocol/extensions/pex.py) -/

/-- A peer endpoint. -/
structure Endpoint where
  ip : String
  port : Nat
deriving DecidableEq, Repr

/-- The per-recipient filter of AsyncPeerManager.share_peers_via_pex: every
known peer except the recipient's own (ip, port). -/
def sharePeerList (known_peers : List Endpoint) (recipient : Endpoint) : List Endpoint :=
  known_peers.filter (fun p => p ≠ recipient)

/-- The filter of PEXExtension.send_pex_message: drop peers already sent to
this recipient, our own IP, invalid IPs (validIp models socket.inet_aton
succeeding) and out-of-range ports.  The survivors are exactly the
endpoints encoded as the 6-byte records of the added field, in order. -/
def sendPexFilter (added_peers : List Endpoint) (sent_peers : List Endpoint)
    (my_ip : String) (validIp : String → Bool) : List Endpoint :=
  added_peers.filter (fun p =>
    decide (p ∉ sent_peers) && decide (p.ip ≠ my_ip) && validIp p.ip &&
      decide (0 < p.port) && decide (p.port ≤ 65535))

/-- The endpoints whose 6-byte records form the added payload that
share_peers_via_pex sends to a recipient. -/
def pexAddedRecords (known_peers : List Endpoint) (recipient : Endpoint)
    (sent_peers : List Endpoint) (my_ip : String) (validIp : String → Bool) :
    List Endpoint :=
  sendPexFilter (sharePeerList known_peers recipient) sent_peers my_ip validIp

/-- A concrete piece-manager state with a single missing piece of length
one, used to instantiate the piece-selection theorem. -/
def c8State : PMState :=
  { pieces := [Piece.mkInit 0 1 []]
    busy_pieces := []
    completed_pieces := []
    failed_attempts := []
    piece_lock_time := []
    number_of_pieces := 1
    bitfield := [false]
    output_files := []
    piece_length := 1
    fs := []
    progress_file := [false]
    pieces_selected := 0
    pieces_completed := 0
    pieces_failed := 0
    pieces_invalid := 0 }

/-- The union of the byte intervals recorded in a block list, as a finite
set; used to reason about coverage. -/
def icoUnion : List (Nat × Nat) → Finset Nat
  | [] => ∅
  | b :: rest => Finset.Ico b.1 (b.1 + b.2) ∪ icoUnion rest

/-! ## Theorems -/

theorem dictLookup_append_self (d : List (Nat × Nat)) (k v : Nat)
    (h : dictMemB d k = false) : dictLookup (d ++ [(k, v)]) k = some v := by
  induction d with
  | nil => simp [dictLookup]
  | cons p rest ih =>
    simp only [dictMemB] at h
    by_cases hk : p.1 = k
    · simp [hk] at h
    · simpa [dictLookup, hk] using ih (by simpa [hk] using h)

theorem dictLookup_overwrite (d : List (Nat × Nat)) (k v : Nat)
    (h : dictMemB d k = true) :
    dictLookup (d.map (fun p => if p.1 = k then (k, v) else p)) k = some v := by
  induction d with
  | nil => simp [dictMemB] at h
  | cons p rest ih =>
    by_cases hk : p.1 = k
    · simp [dictLookup, hk]
    · simp only [dictMemB, if_neg hk] at h
      simpa [dictLookup, hk] using ih h

theorem dictLookup_dictInsert_self (d : List (Nat × Nat)) (k v : Nat) :
    dictLookup (dictInsert d k v) k = some v := by
  unfold dictInsert
  by_cases h : dictMemB d k = true
  · simpa [h] using dictLookup_overwrite d k v h
  · have h' : dictMemB d k = false := by simpa using h
    simpa [h'] using dictLookup_append_self d k v h'

theorem dictInsert_fresh (d : List (Nat × Nat)) (k v : Nat)
    (h : dictMemB d k = false) : dictInsert d k v = d ++ [(k, v)] := by
  simp [dictInsert, h]

theorem mem_setInsert_self (s : List Nat) (x : Nat) : x ∈ setInsert s x := by
  unfold setInsert
  by_cases h : x ∈ s
  · simp [setInsert, h]
  · simp [setInsert, h]

/-- Claim C1.  The code evaluated at a straddling piece (files a and b of
two bytes each, piece_length 3, piece 0 = [1,2,3]): the write splits the
piece as [1,2] into a and [1] into b, because the source slices
piece_data[overlap_start:overlap_end] without adding current_offset; the
portion of the piece overlapping b's span is [3].  Reading the range back
yields [1,2,1], not the original piece. -/
theorem c1_straddle_write_read_bug :
    write_piece_to_files 3 [⟨"a", 2, 0⟩, ⟨"b", 2, 2⟩]
        [("a", [0, 0]), ("b", [0, 0])] 0 [1, 2, 3]
      = [("a", [1, 2]), ("b", [1, 0])] ∧
    pySlice [1, 2, 3] 2 3 = [3] ∧
    fsRead [("a", [1, 2]), ("b", [1, 0])] "b" = [1, 0] ∧
    get_piece_block 3 [⟨"a", 2, 0⟩, ⟨"b", 2, 2⟩]
        [("a", [1, 2]), ("b", [1, 0])] [0] 0 0 3 = some [1, 2, 1] ∧
    ([1, 2, 1] : Bytes) ≠ [1, 2, 3] := by decide

/-- Claim C2.  The code evaluated at an inbound Choke frame (content [0]):
Choke.deserialize_payload returns an Unchoke object, the listener's
dispatch therefore runs handle_unchoke, and peer_choking becomes false —
the claim requires true.  An Unchoke frame (content [1]) also yields
false, as claimed. -/
theorem c2_choke_frame_clears_peer_choking :
    deserializeMessage [0] = some Msg.unchoke ∧
    (applyFrameChoking initialFlags 1 [0]).peer_choking = false ∧
    (applyFrameChoking initialFlags 1 [1]).peer_choking = false := by decide

/-- Claim C4.  The code evaluated at a multi-file descriptor with two
10000-byte files: load_file leaves file_length at its initialised value 0,
while the sum of the files' lengths is 20000. -/
theorem c4_multifile_leaves_file_length_zero :
    (Torrent.loadFrom
        ⟨"t", 16384, List.replicate 40 0,
          some [⟨10000, ["a"]⟩, ⟨10000, ["b"]⟩], 0⟩).file_length = 0 ∧
    ((Torrent.loadFrom
        ⟨"t", 16384, List.replicate 40 0,
          some [⟨10000, ["a"]⟩, ⟨10000, ["b"]⟩], 0⟩).files.map TFile.length).sum
      = 20000 ∧
    (0 : Nat) ≠ 20000 := by decide

/-- Claim C5.  The code evaluated at a completing block whose piece fails
hash validation (single piece of length 1, expected hash [9], SHA-1
returning [0]): the buffer is flushed and the piece leaves the busy set,
but failed_attempts is not incremented — it remains empty. -/
theorem c5_hash_fail_flushes_but_keeps_failed_attempts :
    (recieve_block_piece (fun _ => [0])
        { pieces := [Piece.mkInit 0 1 [9]]
          busy_pieces := [0]
          completed_pieces := []
          failed_attempts := []
          piece_lock_time := [(0, 5)]
          number_of_pieces := 1
          bitfield := [false]
          output_files := [⟨"f", 1, 0⟩]
          piece_length := 1
          fs := [("f", [0])]
          progress_file := [false]
          pieces_selected := 0
          pieces_completed := 0
          pieces_failed := 0
          pieces_invalid := 0 } 0 0 [5])
      = (false,
          { pieces := [Piece.mkInit 0 1 [9]]
            busy_pieces := []
            completed_pieces := []
            failed_attempts := []
            piece_lock_time := [(0, 5)]
            number_of_pieces := 1
            bitfield := [false]
            output_files := [⟨"f", 1, 0⟩]
            piece_length := 1
            fs := [("f", [0])]
            progress_file := [false]
            pieces_selected := 0
            pieces_completed := 0
            pieces_failed := 0
            pieces_invalid := 1 }) := by decide

/-- Claim C6.  The code evaluated at a 68-byte handshake response whose
info_hash (twenty 0 bytes) differs from ours (twenty 1 bytes): parsing
succeeds, the parsed info_hash is never compared against ours, and the
peer stays healthy — the claim requires the connection to be dropped. -/
theorem c6_info_hash_mismatch_not_dropped :
    connectOutcome (List.replicate 20 1)
        (19 :: (List.replicate 19 66 ++ List.replicate 8 0 ++
          List.replicate 20 0 ++ List.replicate 20 2)) = true ∧
    (parse_handshake
        (19 :: (List.replicate 19 66 ++ List.replicate 8 0 ++
          List.replicate 20 0 ++ List.replicate 20 2))).map
        (fun h => h.info_hash) = some (List.replicate 20 0) ∧
    List.replicate 20 0 ≠ List.replicate 20 1 := by decide

/-- Claim C10.  add_block with an offset beyond the current buffer length:
Python's clamping slice assignment appends the data at the end of the
buffer, growing it by the data's length, and the block's recorded length
still counts toward is_complete()'s received sum (in full when the offset
is fresh). -/
theorem c10_add_block_beyond_end_appends (p : Piece) (offset : Nat) (data : Bytes)
    (hoff : p.raw_data.length < offset) :
    (p.add_block offset data).raw_data = p.raw_data ++ data ∧
    (p.add_block offset data).raw_data.length = p.raw_data.length + data.length ∧
    dictLookup (p.add_block offset data).received offset = some data.length ∧
    (dictMemB p.received offset = false →
      ((p.add_block offset data).received.map Prod.snd).sum
        = (p.received.map Prod.snd).sum + data.length) := by
  have hle : p.raw_data.length ≤ offset := Nat.le_of_lt hoff
  have hle2 : p.raw_data.length ≤ offset + data.length := Nat.le_trans hle (Nat.le_add_right _ _)
  have hraw : (p.add_block offset data).raw_data = p.raw_data ++ data := by
    simp [Piece.add_block, pySliceAssign, Nat.min_eq_right hle, Nat.min_eq_right hle2,
      List.take_length, List.drop_length]
  refine ⟨hraw, ?_, ?_, ?_⟩
  · simp [hraw]
  · simpa [Piece.add_block] using dictLookup_dictInsert_self p.received offset data.length
  · intro hfresh
    simp [Piece.add_block, dictInsert_fresh p.received offset data.length hfresh]

/-- Witness for c10_add_block_beyond_end_appends: a fresh piece of length
2 receiving a one-byte block at offset 5. -/
theorem c10_add_block_beyond_end_appends_witness :
    (Piece.mkInit 0 2 []).raw_data.length < 5 ∧
    (((Piece.mkInit 0 2 []).add_block 5 [7]).raw_data
        = (Piece.mkInit 0 2 []).raw_data ++ [7] ∧
      ((Piece.mkInit 0 2 []).add_block 5 [7]).raw_data.length
        = (Piece.mkInit 0 2 []).raw_data.length + ([7] : Bytes).length ∧
      dictLookup ((Piece.mkInit 0 2 []).add_block 5 [7]).received 5
        = some ([7] : Bytes).length ∧
      (dictMemB (Piece.mkInit 0 2 []).received 5 = false →
        (((Piece.mkInit 0 2 []).add_block 5 [7]).received.map Prod.snd).sum
          = ((Piece.mkInit 0 2 []).received.map Prod.snd).sum + ([7] : Bytes).length)) :=
  ⟨by decide, c10_add_block_beyond_end_appends (Piece.mkInit 0 2 []) 5 [7] (by decide)⟩

theorem coversByte_iff_mem_icoUnion (bs : List (Nat × Nat)) (i : Nat) :
    coversByte bs i = true ↔ i ∈ icoUnion bs := by
  induction bs with
  | nil => simp [coversByte, icoUnion]
  | cons b rest ih =>
    simp only [icoUnion, Finset.mem_union, ← ih, Finset.mem_Ico]
    simp [coversByte, List.any_cons]

theorem icoUnion_card_le (bs : List (Nat × Nat)) :
    (icoUnion bs).card ≤ (bs.map Prod.snd).sum := by
  induction bs with
  | nil => simp [icoUnion]
  | cons b rest ih =>
    calc (icoUnion (b :: rest)).card
        ≤ (Finset.Ico b.1 (b.1 + b.2)).card + (icoUnion rest).card :=
          Finset.card_union_le _ _
      _ ≤ b.2 + (rest.map Prod.snd).sum := by
          rw [Nat.card_Ico, Nat.add_sub_cancel_left]
          exact Nat.add_le_add_left ih _
      _ = ((b :: rest).map Prod.snd).sum := by simp

theorem disjoint_icoUnion (a : Nat × Nat) (bs : List (Nat × Nat))
    (h : ∀ c ∈ bs, a.1 + a.2 ≤ c.1 ∨ c.1 + c.2 ≤ a.1) :
    Disjoint (Finset.Ico a.1 (a.1 + a.2)) (icoUnion bs) := by
  induction bs with
  | nil => simp [icoUnion]
  | cons c rest ih =>
    rw [icoUnion]
    rw [Finset.disjoint_union_right]
    constructor
    · apply Finset.disjoint_left.mpr
      intro x hx hx2
      rw [Finset.mem_Ico] at hx hx2
      rcases h c (List.mem_cons_self c rest) with h1 | h1 <;> omega
    · exact ih (fun d hd => h d (List.mem_cons_of_mem _ hd))

theorem icoUnion_card_of_disjoint (bs : List (Nat × Nat))
    (h : bs.Pairwise (fun a b => a.1 + a.2 ≤ b.1 ∨ b.1 + b.2 ≤ a.1)) :
    (icoUnion bs).card = (bs.map Prod.snd).sum := by
  induction bs with
  | nil => simp [icoUnion]
  | cons b rest ih =>
    rcases List.pairwise_cons.mp h with ⟨hb, hrest⟩
    rw [icoUnion, Finset.card_union_of_disjoint (disjoint_icoUnion b rest hb),
      Nat.card_Ico, Nat.add_sub_cancel_left]
    simp [icoUnion] at ih
    simp [ih hrest]

theorem icoUnion_subset_range (bs : List (Nat × Nat)) (L : Nat)
    (h : ∀ b ∈ bs, b.1 + b.2 ≤ L) : icoUnion bs ⊆ Finset.range L := by
  induction bs with
  | nil => simp [icoUnion]
  | cons b rest ih =>
    rw [icoUnion]
    apply Finset.union_subset
    · intro x hx
      rw [Finset.mem_Ico] at hx
      have := h b (List.mem_cons_self b rest)
      exact Finset.mem_range.mpr (by omega)
    · exact ih (fun d hd => h d (List.mem_cons_of_mem _ hd))

/-- Claim C3, counterexample.  Two one-byte blocks at offsets 0 and 5 on a
piece of length 2: is_complete() returns true (the received lengths sum to
2) although byte 1 is not covered by any received block. -/
theorem c3_counterexample_uncovered_byte_complete :
    (applyBlocks (Piece.mkInit 0 2 []) [(0, [7]), (5, [7])]).is_complete = true ∧
    (applyBlocks (Piece.mkInit 0 2 []) [(0, [7]), (5, [7])]).piece_length = 2 ∧
    coversByte (applyBlocks (Piece.mkInit 0 2 []) [(0, [7]), (5, [7])]).received 1
      = false := by decide

/-- Claim C3 (amended): is_complete() tests whether the per-offset received
lengths sum to at least piece_length; when the recorded blocks are pairwise
non-overlapping and lie within [0, piece_length), this is equivalent to
every byte offset in [0, piece_length) being covered by a received
block. -/
theorem c3_is_complete_iff_coverage (p : Piece)
    (hdisj : p.received.Pairwise (fun a b => a.1 + a.2 ≤ b.1 ∨ b.1 + b.2 ≤ a.1))
    (hrange : ∀ b ∈ p.received, b.1 + b.2 ≤ p.piece_length) :
    (p.is_complete = true ↔ ∀ i < p.piece_length, coversByte p.received i = true) := by
  have hcard := icoUnion_card_of_disjoint p.received hdisj
  have hsub := icoUnion_subset_range p.received p.piece_length hrange
  constructor
  · intro hc i hi
    have hsum : p.piece_length ≤ (p.received.map Prod.snd).sum := by
      simpa [Piece.is_complete] using hc
    have hcards : (Finset.range p.piece_length).card ≤ (icoUnion p.received).card := by
      rw [Finset.card_range, hcard]
      exact hsum
    have heq : icoUnion p.received = Finset.range p.piece_length :=
      Finset.eq_of_subset_of_card_le hsub hcards
    refine (coversByte_iff_mem_icoUnion _ _).mpr ?_
    rw [heq]
    exact Finset.mem_range.mpr hi
  · intro hcov
    have hsub2 : Finset.range p.piece_length ⊆ icoUnion p.received := by
      intro i hi
      exact (coversByte_iff_mem_icoUnion _ _).mp (hcov i (Finset.mem_range.mp hi))
    have hsum : p.piece_length ≤ (p.received.map Prod.snd).sum := by
      calc p.piece_length = (Finset.range p.piece_length).card := (Finset.card_range _).symm
        _ ≤ (icoUnion p.received).card := Finset.card_le_card hsub2
        _ ≤ (p.received.map Prod.snd).sum := icoUnion_card_le p.received
    simpa [Piece.is_complete] using hsum

/-- Witness for c3_is_complete_iff_coverage: a piece of length 2 assembled
from two adjacent one-byte blocks. -/
theorem c3_is_complete_iff_coverage_witness :
    ((applyBlocks (Piece.mkInit 0 2 []) [(0, [7]), (1, [8])]).received.Pairwise
        (fun a b => a.1 + a.2 ≤ b.1 ∨ b.1 + b.2 ≤ a.1)) ∧
    (∀ b ∈ (applyBlocks (Piece.mkInit 0 2 []) [(0, [7]), (1, [8])]).received,
        b.1 + b.2 ≤ (applyBlocks (Piece.mkInit 0 2 []) [(0, [7]), (1, [8])]).piece_length) ∧
    ((applyBlocks (Piece.mkInit 0 2 []) [(0, [7]), (1, [8])]).is_complete = true ↔
      ∀ i < (applyBlocks (Piece.mkInit 0 2 []) [(0, [7]), (1, [8])]).piece_length,
        coversByte (applyBlocks (Piece.mkInit 0 2 []) [(0, [7]), (1, [8])]).received i
          = true) :=
  ⟨by decide, by decide,
    c3_is_complete_iff_coverage (applyBlocks (Piece.mkInit 0 2 []) [(0, [7]), (1, [8])])
      (by decide) (by decide)⟩

/-- Claim C7, counterexample.  A Have frame whose payload has 3 bytes
instead of 4 (advertised length 4, content [4,0,0,5]): the decoder's
ValueError is swallowed by Message.deserialize, which returns None, and the
listener skips the frame — the connection is not dropped, contradicting
the claim.  A Choke frame with a stray payload byte ([0,99]) is not even
rejected: it decodes (to an Unchoke, per the source). -/
theorem c7_counterexample_malformed_frame_not_dropped :
    deserializeMessage [4, 0, 0, 5] = none ∧
    listenStep 1 [4, 0, 0, 5] = ListenAction.skip ∧
    ListenAction.skip ≠ ListenAction.drop ∧
    deserializeMessage [0, 99] = some Msg.unchoke := by decide

/-- Claim C7 (amended): for frames with ids other than 20, a length/payload
mismatch never drops the connection — deserialization errors are swallowed
and the frame is skipped, exactly as unknown ids are; ids 9 to 19 and
above 20 are always skipped. -/
theorem c7_non_extended_frames_never_drop (ut_pex_id : Nat) (data : Bytes)
    (hne : data ≠ []) (hid : data.headD 0 ≠ 20) :
    listenStep ut_pex_id data ≠ ListenAction.drop ∧
    (deserializeMessage data = none → listenStep ut_pex_id data = ListenAction.skip) := by
  match data with
  | [] => exact absurd rfl hne
  | mid :: rest =>
    have hmid : mid ≠ 20 := by simpa using hid
    rcases hdes : deserializeMessage (mid :: rest) with _ | m
    · constructor
      · simp [listenStep, hmid, hdes]
      · intro _
        simp [listenStep, hmid, hdes]
    · constructor
      · cases m <;> simp [listenStep, hmid, hdes]
      · intro hnone
        exact absurd hnone (by simp)

/-- Witness for c7_non_extended_frames_never_drop: an unknown-id frame
(id 99). -/
theorem c7_non_extended_frames_never_drop_witness :
    ([99] : Bytes) ≠ [] ∧ ([99] : Bytes).headD 0 ≠ 20 ∧
    (listenStep 1 [99] ≠ ListenAction.drop ∧
      (deserializeMessage [99] = none → listenStep 1 [99] = ListenAction.skip)) :=
  ⟨by decide, by decide,
    c7_non_extended_frames_never_drop 1 [99] (by decide) (by decide)⟩

theorem selectLoop_mem (cands : List (Nat × ℚ)) (cum r : ℚ) (i : Nat)
    (h : selectLoop cands cum r = some i) : ∃ p, (i, p) ∈ cands := by
  induction cands generalizing cum with
  | nil => simp [selectLoop] at h
  | cons c rest ih =>
    rw [selectLoop] at h
    by_cases hc : r ≤ cum + c.2
    · rw [if_pos hc] at h
      refine ⟨c.2, ?_⟩
      have : c.1 = i := by simpa using h
      rw [← this]
      exact List.mem_cons_self _ _
    · rw [if_neg hc] at h
      obtain ⟨p, hp⟩ := ih _ h
      exact ⟨p, List.mem_cons_of_mem _ hp⟩

theorem candidateList_mem (s : PMState) (bf : Option (List Bool)) (i : Nat) (p : ℚ)
    (h : (i, p) ∈ candidateList s bf) :
    (s.pieces.getD i dummyPiece).piece_length ≠ 0 ∧
    i ∉ s.completed_pieces ∧ i ∉ s.busy_pieces ∧
    (∀ bits, bf = some bits → bitfieldHas bits i = true) := by
  simp only [candidateList, List.mem_map, List.mem_filter, List.mem_range] at h
  obtain ⟨j, ⟨hjr, hjc⟩, hji⟩ := h
  have hij : j = i := congrArg Prod.fst hji
  subst hij
  simp only [isCandidate, Bool.and_eq_true, Bool.not_eq_true', decide_eq_false_iff_not,
    decide_eq_true_eq] at hjc
  obtain ⟨⟨⟨hlen, hcomp⟩, hbusy⟩, hbf⟩ := hjc
  refine ⟨hlen, hcomp, hbusy, ?_⟩
  intro bits hbits
  rw [hbits] at hbf
  exact hbf

theorem choose_next_piece_some (s : PMState) (bf : Option (List Bool)) (u : ℚ)
    (now i : Nat) (h : (choose_next_piece s bf u now).1 = some i) :
    (∃ p, (i, p) ∈ candidateList s bf) ∧
    (choose_next_piece s bf u now).2 = markBusy s i now := by
  unfold choose_next_piece at h ⊢
  by_cases he : (candidateList s bf).isEmpty = true
  · simp [he] at h
  · rw [if_neg he] at h ⊢
    revert h
    rcases hsel : selectLoop (candidateList s bf) 0
        (u * ((candidateList s bf).map Prod.snd).sum) with _ | i'
    · rcases hh : (candidateList s bf).head? with _ | c0
      · intro h
        simp at h
      · intro h
        have hi : c0.1 = i := by simpa using h
        subst hi
        refine ⟨⟨c0.2, ?_⟩, rfl⟩
        exact List.mem_of_mem_head? (by rw [hh]; rfl)
    · intro h
      have hi : i' = i := by simpa using h
      subst hi
      exact ⟨selectLoop_mem _ _ _ _ hsel, rfl⟩

/-- Claim C8: a piece returned by choose_next_piece is not completed, not
busy, has positive length, and is held by the peer whenever a bitfield was
supplied; the piece is busy in the post-state, so a second call on that
state — for any peer bitfield and random draw — can never grant the same
piece again. -/
theorem c8_choose_next_piece_sound (s : PMState) (bf : Option (List Bool)) (u : ℚ)
    (now i : Nat) (h : (choose_next_piece s bf u now).1 = some i) :
    i ∉ s.completed_pieces ∧ i ∉ s.busy_pieces ∧
    0 < (s.pieces.getD i dummyPiece).piece_length ∧
    (∀ bits, bf = some bits → bitfieldHas bits i = true) ∧
    i ∈ ((choose_next_piece s bf u now).2).busy_pieces ∧
    ∀ (bf2 : Option (List Bool)) (u2 : ℚ) (now2 j : Nat),
      (choose_next_piece ((choose_next_piece s bf u now).2) bf2 u2 now2).1 = some j →
        j ≠ i := by
  obtain ⟨⟨p, hp⟩, hstate⟩ := choose_next_piece_some s bf u now i h
  obtain ⟨hlen, hcomp, hbusy, hbf⟩ := candidateList_mem s bf i p hp
  have hpost : i ∈ ((choose_next_piece s bf u now).2).busy_pieces := by
    rw [hstate]
    exact mem_setInsert_self _ _
  refine ⟨hcomp, hbusy, Nat.pos_of_ne_zero hlen, hbf, hpost, ?_⟩
  intro bf2 u2 now2 j hj heq
  subst heq
  obtain ⟨⟨q, hq⟩, _⟩ := choose_next_piece_some _ bf2 u2 now2 j hj
  obtain ⟨_, _, hbusy2, _⟩ := candidateList_mem _ bf2 j q hq
  exact hbusy2 hpost

/-- Witness for c8_choose_next_piece_sound: a fresh single-piece state with
no bitfield and draw u = 0 grants piece 0. -/
theorem c8_choose_next_piece_sound_witness :
    ((choose_next_piece c8State none 0 0).1 = some 0) ∧
    (0 ∉ c8State.completed_pieces ∧ 0 ∉ c8State.busy_pieces ∧
      0 < (c8State.pieces.getD 0 dummyPiece).piece_length ∧
      (∀ bits, (none : Option (List Bool)) = some bits → bitfieldHas bits 0 = true) ∧
      0 ∈ ((choose_next_piece c8State none 0 0).2).busy_pieces ∧
      ∀ (bf2 : Option (List Bool)) (u2 : ℚ) (now2 j : Nat),
        (choose_next_piece ((choose_next_piece c8State none 0 0).2) bf2 u2 now2).1
          = some j → j ≠ 0) :=
  ⟨by simp [choose_next_piece, candidateList, isCandidate, selectLoop, candidatePriority,
      dictLookup, dummyPiece, Piece.mkInit, c8State, bitfieldHas],
    c8_choose_next_piece_sound c8State none 0 0 0
      (by simp [choose_next_piece, candidateList, isCandidate, selectLoop, candidatePriority,
        dictLookup, dummyPiece, Piece.mkInit, c8State, bitfieldHas])⟩

/-- Claim C9: for every known-peer list, recipient, already-sent set and
own IP, the endpoints whose 6-byte records make up the PEX added payload
never include the recipient's own (ip, port) — filtered out by
share_peers_via_pex — nor any endpoint with our own IP — filtered out by
send_pex_message. -/
theorem c9_pex_added_excludes_recipient_and_self (known_peers : List Endpoint)
    (recipient : Endpoint) (sent_peers : List Endpoint) (my_ip : String)
    (validIp : String → Bool) :
    (pexAddedRecords known_peers recipient sent_peers my_ip validIp).all
      (fun p => decide (p ≠ recipient) && decide (p.ip ≠ my_ip)) = true := by
  rw [List.all_eq_true]
  intro p hp
  simp only [pexAddedRecords, sendPexFilter, sharePeerList, List.mem_filter,
    Bool.and_eq_true, decide_eq_true_eq] at hp
  simp only [Bool.and_eq_true, decide_eq_true_eq]
  exact ⟨hp.1.2, hp.2.1.1.1.2⟩

end PyTorrent
